import Mathlib

/-!
Shallow embedding of the aggregation/delivery core of the
`workers-observability-utils` repository, together with proofs of the
spec claims about it.

Conventions of the embedding:
* JS numbers (metric values, histogram samples) are modelled as exact
  rationals `ℚ`; timestamps (milliseconds) as `Int`.
* A JS `Map<string, V>` is modelled as an association list
  `List (String × V)`; `Map.set` replaces the entry in place when the key
  is present (preserving insertion order, as JS `Map.set` does) and
  appends otherwise; `Map.get` is the first matching entry.
* `Object.entries(tags)` is modelled as a `List (String × TagValue)`
  whose keys are pairwise distinct (JS object keys are unique);
  `localeCompare` on keys is modelled by Lean's lexicographic order on
  `String`, which is likewise a total order on strings.
-/

set_option autoImplicit false

/-- The `MetricType` string enum of `types.ts`. -/
inductive MetricType where
  | COUNT
  | GAUGE
  | HISTOGRAM
  | DISTRIBUTION
  deriving DecidableEq, Repr

/-- String interpolation of a `MetricType` (string-valued enum members). -/
def MetricType.toKeyString : MetricType → String
  | .COUNT => "COUNT"
  | .GAUGE => "GAUGE"
  | .HISTOGRAM => "HISTOGRAM"
  | .DISTRIBUTION => "DISTRIBUTION"

/-- A scalar tag value (`string | number | boolean | undefined | null` in
`types.ts`); JS numbers used as tag values are modelled as integers. -/
inductive TagValue where
  | str (s : String)
  | num (n : Int)
  | bool (b : Bool)
  | null
  | undef
  deriving DecidableEq, Repr

/-- JS template-literal coercion of a tag value to a string. -/
def TagValue.render : TagValue → String
  | .str s => s
  | .num n => toString n
  | .bool b => if b then "true" else "false"
  | .null => "null"
  | .undef => "undefined"

/-- `Tags` as the entry list of the JS object (keys pairwise distinct). -/
abbrev Tags : Type := List (String × TagValue)

/-- Lexicographic comparison of character lists: the total order on string
keys used by the tag sort. -/
def charListLE : List Char → List Char → Bool
  | [], _ => true
  | _ :: _, [] => false
  | a :: as, b :: bs =>
    if a = b then charListLE as bs else decide (a.toNat ≤ b.toNat)

theorem Char.toNat_injective {a b : Char} (h : a.toNat = b.toNat) : a = b := by
  have hv : a.val = b.val := by
    rcases a with ⟨⟨⟨va, hva⟩⟩, pa⟩
    rcases b with ⟨⟨⟨vb, hvb⟩⟩, pb⟩
    simp [Char.toNat, UInt32.toNat] at h
    simp [h]
  exact Char.eq_of_val_eq hv

theorem charListLE_total : ∀ x y : List Char,
    charListLE x y = true ∨ charListLE y x = true
  | [], _ => Or.inl rfl
  | _ :: _, [] => Or.inr rfl
  | a :: as, b :: bs => by
    by_cases hab : a = b
    · subst hab
      simpa [charListLE] using charListLE_total as bs
    · rcases Nat.le_total a.toNat b.toNat with h | h
      · exact Or.inl (by simp [charListLE, hab, h])
      · exact Or.inr (by simp [charListLE, Ne.symm hab, h])

theorem charListLE_antisymm : ∀ x y : List Char,
    charListLE x y = true → charListLE y x = true → x = y
  | [], [], _, _ => rfl
  | [], _ :: _, _, h => by simp [charListLE] at h
  | _ :: _, [], h, _ => by simp [charListLE] at h
  | a :: as, b :: bs, h, h' => by
    by_cases hab : a = b
    · subst hab
      simp only [charListLE, if_pos rfl] at h h'
      exact congrArg (a :: ·) (charListLE_antisymm as bs h h')
    · simp only [charListLE, if_neg hab, if_neg (Ne.symm hab),
        decide_eq_true_eq] at h h'
      exact absurd (Char.toNat_injective (Nat.le_antisymm h h')) hab

theorem charListLE_trans : ∀ x y z : List Char,
    charListLE x y = true → charListLE y z = true → charListLE x z = true
  | [], _, _, _, _ => rfl
  | _ :: _, [], _, h, _ => by simp [charListLE] at h
  | _ :: _, _ :: _, [], _, h' => by simp [charListLE] at h'
  | a :: as, b :: bs, c :: cs, h, h' => by
    by_cases hab : a = b <;> by_cases hbc : b = c
    · subst hab; subst hbc
      simp only [charListLE, if_pos rfl] at h h' ⊢
      exact charListLE_trans as bs cs h h'
    · subst hab
      simpa [charListLE, hbc] using h'
    · subst hbc
      simpa [charListLE, hab] using h
    · simp only [charListLE, if_neg hab, if_neg hbc, decide_eq_true_eq] at h h'
      have hac : a ≠ c := by
        intro he
        subst he
        exact hab (Char.toNat_injective (Nat.le_antisymm h h'))
      simp [charListLE, hac, Nat.le_trans h h']

/-- Key order used by the tag sort (`localeCompare` on keys in the source,
modelled as a lexicographic total order on the keys). -/
def tagKeyLE (p q : String × TagValue) : Prop :=
  charListLE p.1.data q.1.data = true

instance : DecidableRel tagKeyLE := fun _ _ =>
  inferInstanceAs (Decidable (_ = true))

instance : IsTotal (String × TagValue) tagKeyLE :=
  ⟨fun p q => charListLE_total p.1.data q.1.data⟩

instance : IsTrans (String × TagValue) tagKeyLE :=
  ⟨fun _ _ _ h h' => charListLE_trans _ _ _ h h'⟩

theorem tagKeyLE_antisymm_key {p q : String × TagValue}
    (h : tagKeyLE p q) (h' : tagKeyLE q p) : p.1 = q.1 := by
  rcases p with ⟨⟨d₁⟩, v₁⟩
  rcases q with ⟨⟨d₂⟩, v₂⟩
  exact congrArg String.mk (charListLE_antisymm d₁ d₂ h h')

/-- The strict key order: `tagKeyLE` together with key distinctness. Two
entries with distinct keys compare strictly in exactly one direction. -/
def tagKeyStrict (p q : String × TagValue) : Prop :=
  tagKeyLE p q ∧ p.1 ≠ q.1

instance : IsAntisymm (String × TagValue) tagKeyStrict :=
  ⟨fun _ _ h h' => absurd (tagKeyLE_antisymm_key h.1 h'.1) h.2⟩

/-- `serializeTags` of `metricsDb.ts`: sort the entries by key, render each
as `key:value`, join with commas. -/
def serializeTags (tags : Tags) : String :=
  String.intercalate ","
    ((List.insertionSort tagKeyLE tags).map (fun p => p.1 ++ ":" ++ p.2.render))

/-- One `(value, time)` histogram sample. -/
structure Sample where
  value : ℚ
  time : Int
  deriving DecidableEq, Repr

/-- The value slot of a stored metric: a number for COUNT/GAUGE, a sample
sequence for HISTOGRAM. -/
inductive StoredValue where
  | scalar (v : ℚ)
  | samples (s : List Sample)
  deriving DecidableEq, Repr

/-- The `existingMetric.value as number` cast of `metricsDb.ts`. -/
def StoredValue.asNumber : StoredValue → ℚ
  | .scalar v => v
  | .samples _ => 0

/-- The `existingMetric.value as {value,time}[]` cast of `metricsDb.ts`. -/
def StoredValue.asSamples : StoredValue → List Sample
  | .scalar _ => []
  | .samples s => s

/-- A `StoredMetric` of `metricsDb.ts`. -/
structure StoredMetric where
  type : MetricType
  name : String
  tags : Tags
  value : StoredValue
  lastUpdated : Int
  deriving DecidableEq, Repr

/-- An `EmittedMetricPayload` of `types.ts` (a `MetricPayload` plus its
emission timestamp; every payload kind carries a numeric `value`). -/
structure EmittedMetricPayload where
  type : MetricType
  name : String
  value : ℚ
  tags : Tags
  timestamp : Int
  deriving DecidableEq, Repr

/-- The `ExportedMetricPayload` union of `types.ts`: COUNT/GAUGE carry a
scalar value and a `timestamp` field; the HISTOGRAM arm carries the sample
sequence and has no `timestamp` field at all. -/
inductive ExportedMetricPayload where
  | scalar (type : MetricType) (name : String) (value : ℚ) (tags : Tags)
      (timestamp : Int)
  | histogram (name : String) (value : List Sample) (tags : Tags)
  deriving DecidableEq, Repr

/-- The metric name of an exported payload. -/
def ExportedMetricPayload.name : ExportedMetricPayload → String
  | .scalar _ n _ _ _ => n
  | .histogram n _ _ => n

/-- `Map.get`: the first entry with the given key. -/
def mapGet (l : List (String × StoredMetric)) (k : String) :
    Option StoredMetric :=
  (l.find? (fun p => p.1 == k)).map (fun p => p.2)

/-- `Map.set`: replace in place when the key is present, append otherwise. -/
def mapSet (l : List (String × StoredMetric)) (k : String)
    (v : StoredMetric) : List (String × StoredMetric) :=
  if l.any (fun p => p.1 == k) then
    l.map (fun p => if p.1 == k then (k, v) else p)
  else
    l ++ [(k, v)]

/-- The `MetricsDb` class: its private `metrics` map. -/
structure MetricsDb where
  metrics : List (String × StoredMetric)
  deriving DecidableEq, Repr

/-- A fresh `MetricsDb` (`new Map()`). -/
def MetricsDb.empty : MetricsDb := ⟨[]⟩

/-- `MetricsDb.getMetricKey`. -/
def MetricsDb.getMetricKey (metric : EmittedMetricPayload) : String :=
  metric.name ++ ":" ++ metric.type.toKeyString ++ ":" ++
    serializeTags metric.tags

/-- `MetricsDb.storeMetric`: the switch on `metric.type`. The
`DISTRIBUTION` member has no case in the source switch, so the map is left
untouched for it. -/
def MetricsDb.storeMetric (db : MetricsDb) (metric : EmittedMetricPayload) :
    MetricsDb :=
  let key := MetricsDb.getMetricKey metric
  let existingMetric := mapGet db.metrics key
  match metric.type with
  | .COUNT =>
    let newValue :=
      match existingMetric with
      | some m => m.value.asNumber + metric.value
      | none => metric.value
    ⟨mapSet db.metrics key
      ⟨.COUNT, metric.name, metric.tags, .scalar newValue, metric.timestamp⟩⟩
  | .GAUGE =>
    ⟨mapSet db.metrics key
      ⟨.GAUGE, metric.name, metric.tags, .scalar metric.value,
        metric.timestamp⟩⟩
  | .HISTOGRAM =>
    let existingValue :=
      match existingMetric with
      | some m => m.value.asSamples
      | none => []
    ⟨mapSet db.metrics key
      ⟨.HISTOGRAM, metric.name, metric.tags,
        .samples (existingValue ++ [⟨metric.value, metric.timestamp⟩]),
        metric.timestamp⟩⟩
  | .DISTRIBUTION => db

/-- `MetricsDb.getMetricCount` (`Map.size`; the association list keeps keys
distinct, so its length is the map's size). -/
def MetricsDb.getMetricCount (db : MetricsDb) : Nat :=
  db.metrics.length

/-- `Map.values()` in insertion order. -/
def MetricsDb.values (db : MetricsDb) : List StoredMetric :=
  db.metrics.map (fun p => p.2)

/-- One arm of the `toMetricPayloads` switch: COUNT/GAUGE export the scalar
value with `lastUpdated` as `timestamp`; HISTOGRAM exports the sample list
with no `timestamp`; a stored DISTRIBUTION (impossible) would fall through
and push nothing. -/
def exportStoredMetric (m : StoredMetric) : Option ExportedMetricPayload :=
  match m.type with
  | .COUNT => some (.scalar m.type m.name m.value.asNumber m.tags m.lastUpdated)
  | .GAUGE => some (.scalar m.type m.name m.value.asNumber m.tags m.lastUpdated)
  | .HISTOGRAM => some (.histogram m.name m.value.asSamples m.tags)
  | .DISTRIBUTION => none

/-- `MetricsDb.toMetricPayloads`: the loop over `metrics.values()` pushing
one payload per stored metric according to its kind. -/
def MetricsDb.toMetricPayloads (db : MetricsDb) : List ExportedMetricPayload :=
  db.values.filterMap exportStoredMetric

/-! ## The `LogsTail` buffering scheduler (`logsTail.ts`)

The class state is the four private fields (the sink list is carried by
the dispatch model `dispatchToSinks` below, which embeds the send stage of
`#performFlush`).  `processTraceItems` runs synchronously up to the first
`await`: calling `#performFlush()` executes its snapshot-and-clear part
synchronously, and the armed `scheduleFlush()` closure executes its
`++this.#flushId` capture synchronously before `scheduler.wait`.  The
effects handed to the background-task handle (`ctx.waitUntil`) are
recorded as an `Eff` list: a flush dispatching a snapshot to the sinks, or
an armed debounce timer with its captured epoch. -/

/-- The mutable fields of the `LogsTail` class, generic in the trace-item
type. -/
structure LogsTail (α : Type) where
  maxBufferSize : Nat
  maxBufferDuration : Nat
  flushId : Nat
  traceItems : List α
  flushScheduled : Bool
  deriving DecidableEq, Repr

/-- The `LogTailOptions` fields the scheduler reads (`none` models an
omitted option). -/
structure LogTailOptions where
  maxBufferSize : Option Nat
  maxBufferDuration : Option Nat
  deriving DecidableEq, Repr

/-- The `LogsTail` constructor: `options.maxBufferSize || 25` (JS `||`
treats `0` as falsy) and `Math.min(options.maxBufferDuration || 5, 30)`. -/
def mkLogsTail (α : Type) (options : LogTailOptions) : LogsTail α :=
  { maxBufferSize :=
      match options.maxBufferSize with
      | none => 25
      | some 0 => 25
      | some n => n
    maxBufferDuration :=
      min
        (match options.maxBufferDuration with
         | none => 5
         | some 0 => 5
         | some n => n)
        30
    flushId := 0
    traceItems := []
    flushScheduled := false }

/-- A background effect handed to `ctx.waitUntil`. -/
inductive Eff (α : Type) where
  | armTimer (captured : Nat)
  | flush (items : List α)
  deriving DecidableEq, Repr

/-- `LogsTail.#performFlush`, up to the sink fan-out: snapshot the buffer,
reset `#flushScheduled` and clear the buffer, then skip the dispatch when
the snapshot is empty and otherwise hand it to the sink fan-out. -/
def performFlush {α : Type} (t : LogsTail α) : LogsTail α × List (Eff α) :=
  let items := t.traceItems
  let t' : LogsTail α := { t with flushScheduled := false, traceItems := [] }
  if items.length = 0 then (t', []) else (t', [Eff.flush items])

/-- `LogsTail.processTraceItems`.  The size branch resets
`#flushScheduled` (the source only writes `false` when it was `true`,
which leaves the same state), pre-increments `#flushId`, and flushes
immediately; the debounce branch coalesces when a timer is armed, and
otherwise arms one timer whose captured epoch is the pre-incremented
`++this.#flushId`. -/
def processTraceItems {α : Type} (t : LogsTail α) (items : List α) :
    LogsTail α × List (Eff α) :=
  let t₁ : LogsTail α := { t with traceItems := t.traceItems ++ items }
  if t.maxBufferSize ≤ t₁.traceItems.length then
    performFlush { t₁ with flushScheduled := false, flushId := t₁.flushId + 1 }
  else if t₁.flushScheduled then
    (t₁, [])
  else if 0 < t₁.traceItems.length then
    ({ t₁ with flushScheduled := true, flushId := t₁.flushId + 1 },
      [Eff.armTimer (t₁.flushId + 1)])
  else
    (t₁, [])

/-- The wake of a debounce timer armed with captured epoch `captured`:
`if (localFlushId === this.#flushId) await this.#performFlush()`, and
otherwise the stale timer no-ops. -/
def timerWake {α : Type} (t : LogsTail α) (captured : Nat) :
    LogsTail α × List (Eff α) :=
  if captured = t.flushId then performFlush t else (t, [])

/-- One scheduler stimulus: a submitted trace batch, or the wake of a
timer with the epoch it captured at arm time. -/
inductive SchedStep (α : Type) where
  | submit (items : List α)
  | wake (captured : Nat)
  deriving DecidableEq, Repr

/-- Run one stimulus. -/
def schedStep {α : Type} (t : LogsTail α) : SchedStep α → LogsTail α × List (Eff α)
  | .submit items => processTraceItems t items
  | .wake captured => timerWake t captured

/-- The flush payloads among a list of effects. -/
def flushesOf {α : Type} (effs : List (Eff α)) : List (List α) :=
  effs.filterMap (fun e =>
    match e with
    | .flush items => some items
    | .armTimer _ => none)

/-- The items a stimulus submits. -/
def submittedOf {α : Type} : SchedStep α → List α
  | .submit items => items
  | .wake _ => []

/-- Run a stimulus sequence, collecting every flushed payload in order. -/
def runSteps {α : Type} (t : LogsTail α) : List (SchedStep α) →
    LogsTail α × List (List α)
  | [] => (t, [])
  | s :: rest =>
    let out := schedStep t s
    let outRest := runSteps out.1 rest
    (outRest.1, flushesOf out.2 ++ outRest.2)

/-! ## The sink fan-out of `#performFlush` (`logsTail.ts` lines 83-104)

A sink's `sendLogs` is modelled as a function from the snapshot to its
settled outcome (`Except.ok` for a fulfilled promise, `Except.error` for a
rejected one).  `Promise.allSettled` collects every sink's outcome; the
fulfilled ones are counted for the debug log and the rejected ones are
rendered into the error log.  The function is total: no sink outcome can
raise past it, matching the `try/catch` around the whole send stage. -/

/-- The settled results and diagnostics of one flush's send stage. -/
structure FlushReport where
  outcomes : List (Except String Unit)
  successCount : Nat
  errorMessages : List String
  deriving Repr

/-- The outcome message of a rejected send (`error.reason` rendering). -/
def rejectionMessage : Except String Unit → Option String
  | .ok _ => none
  | .error msg => some msg

/-- The send stage of `#performFlush`: invoke every sink on the snapshot,
settle all outcomes together, count the fulfilled ones and aggregate the
rejected ones' messages. -/
def dispatchToSinks {α : Type} (sinks : List (List α → Except String Unit))
    (items : List α) : FlushReport :=
  let results := sinks.map (fun sink => sink items)
  { outcomes := results
    successCount := (results.filter (fun r => r.toBool)).length
    errorMessages := results.filterMap rejectionMessage }

/-! ## Exponential-histogram bucketing (`OtelMetricSink`, `otel.ts`)

`buildExponentialBuckets` receives the strictly-positive (resp. absolute
negative) sample values.  The `Map<number, number>` of per-bucket counts
is modelled by its lookup function: the count at index `i` is the number
of values whose bucket index is `i`.  Bucket counts are modelled as `Nat`
(the source stringifies them for the wire only). -/

/-- `value <= 0 ? 0 : Math.floor(Math.log2(value))`: the scale-0 bucket
index of a sample value (`Int.log 2` is the floor of the base-2
logarithm on `ℚ`). -/
def bucketIndex (v : ℚ) : Int :=
  if v ≤ 0 then 0 else Int.log 2 v

/-- `Math.min(...buckets.keys())` over the observed indices. -/
def listMinI : List Int → Int
  | [] => 0
  | x :: xs => xs.foldl min x

/-- `Math.max(...buckets.keys())` over the observed indices. -/
def listMaxI : List Int → Int
  | [] => 0
  | x :: xs => xs.foldl max x

/-- An exponential bucket set: the offset and the contiguous counts. -/
structure ExpBuckets where
  offset : Int
  bucketCounts : List Nat
  deriving DecidableEq, Repr

/-- `buildExponentialBuckets`: an empty value list yields
`{offset: 0, bucketCounts: []}`; otherwise one count per index from the
minimum to the maximum observed bucket index (`buckets.get(i) || 0`
zero-fills the unobserved ones), with the minimum as offset. -/
def buildExponentialBuckets (values : List ℚ) : ExpBuckets :=
  match values with
  | [] => ⟨0, []⟩
  | _ :: _ =>
    let idxs := values.map bucketIndex
    let minBucket := listMinI idxs
    let maxBucket := listMaxI idxs
    ⟨minBucket,
      (List.range (maxBucket - minBucket + 1).toNat).map
        (fun (i : Nat) =>
          values.countP (fun v => bucketIndex v == minBucket + (i : Int)))⟩

/-! ## The Datadog sink filter (`sinks/metrics/datadog.ts`)

`sendMetrics` returns early on an empty payload list, filters out every
payload whose name starts with the literal `worker.`, transforms the
remaining payloads and sends them.  The transformation-and-send tail is
kept generic in the transformation, since both `sendMetrics` variants
share the same filter-then-transform shape. -/

/-- `JS String.prototype.startsWith`, char by char: `leadsWith pre s` is
true iff the characters of `pre` are an initial segment of those of `s`. -/
def leadsWith : List Char → List Char → Bool
  | [], _ => true
  | _ :: _, [] => false
  | a :: as, b :: bs => a = b && leadsWith as bs

/-- `payload.name.startsWith('worker.')`. -/
def isWorkerMetricName (p : ExportedMetricPayload) : Bool :=
  leadsWith "worker.".data p.name.data

/-- The `payloads.filter((payload) => !payload.name.startsWith('worker.'))`
step. -/
def ddFilterPayloads (payloads : List ExportedMetricPayload) :
    List ExportedMetricPayload :=
  payloads.filter (fun p => !(isWorkerMetricName p))

/-- `DatadogMetricSink.sendMetrics`, observed as the list of transformed
metrics handed to `sendToDatadog`: the early return for an empty payload
list, then filter, then `map(transformMetric)`. -/
def ddSendMetrics {δ : Type} (transformMetric : ExportedMetricPayload → δ)
    (payloads : List ExportedMetricPayload) : List δ :=
  if payloads.isEmpty then []
  else (ddFilterPayloads payloads).map transformMetric

/-! ## Lemmas about the association-list map -/

theorem find_map_replace (l : List (String × StoredMetric)) (k : String)
    (v : StoredMetric) (h : l.any (fun p => p.1 == k) = true) :
    (l.map (fun p => if p.1 == k then (k, v) else p)).find?
      (fun p => p.1 == k) = some (k, v) := by
  induction l with
  | nil => simp at h
  | cons p rest ih =>
    by_cases hp : (p.1 == k) = true
    · simp [List.find?, hp]
    · have h' : rest.any (fun q => q.1 == k) = true := by
        simpa [List.any_cons, hp] using h
      have hpf : (p.1 == k) = false := by
        cases hb : (p.1 == k)
        · rfl
        · exact absurd hb hp
      rw [List.map_cons, if_neg hp]
      simp only [List.find?_cons, hpf]
      exact ih h'

theorem find_append_single (l : List (String × StoredMetric)) (k : String)
    (v : StoredMetric) (h : l.any (fun p => p.1 == k) = false) :
    (l ++ [(k, v)]).find? (fun p => p.1 == k) = some (k, v) := by
  induction l with
  | nil => simp [List.find?]
  | cons p rest ih =>
    have hp : (p.1 == k) = false := by
      by_contra hc
      simp [List.any_cons, eq_true_of_ne_false hc] at h
    have h' : rest.any (fun q => q.1 == k) = false := by
      simpa [List.any_cons, hp] using h
    simp [List.find?, hp, ih h']

theorem mapGet_mapSet_self (l : List (String × StoredMetric)) (k : String)
    (v : StoredMetric) : mapGet (mapSet l k v) k = some v := by
  unfold mapSet
  by_cases h : l.any (fun p => p.1 == k) = true
  · rw [if_pos h]
    unfold mapGet
    rw [find_map_replace l k v h]
    rfl
  · have hfalse : l.any (fun p => p.1 == k) = false := by
      cases hb : l.any (fun p => p.1 == k)
      · rfl
      · exact absurd hb h
    rw [if_neg h]
    unfold mapGet
    rw [find_append_single l k v hfalse]
    rfl

theorem length_mapSet_of_present (l : List (String × StoredMetric))
    (k : String) (v : StoredMetric) (h : l.any (fun p => p.1 == k) = true) :
    (mapSet l k v).length = l.length := by
  unfold mapSet
  rw [if_pos h, List.length_map]

/-! ## Claim C9: DISTRIBUTION emissions are silently dropped by the store -/

/-- C9: for every store state and every emission whose type is
`DISTRIBUTION`, `MetricsDb.storeMetric` is a no-op: it returns normally
and leaves the store completely unchanged (same entries, same count). -/
theorem claimC9 (db : MetricsDb) (e : EmittedMetricPayload)
    (h : e.type = MetricType.DISTRIBUTION) :
    db.storeMetric e = db ∧
      (db.storeMetric e).getMetricCount = db.getMetricCount := by
  have h1 : db.storeMetric e = db := by
    simp only [MetricsDb.storeMetric, h]
  exact ⟨h1, by rw [h1]⟩

/-- C9 at a concrete input: storing a DISTRIBUTION emission into the empty
store leaves it empty. -/
theorem claimC9_witness :
    (EmittedMetricPayload.mk .DISTRIBUTION "d" 1 [] 0).type =
        MetricType.DISTRIBUTION ∧
      MetricsDb.empty.storeMetric ⟨.DISTRIBUTION, "d", 1, [], 0⟩ =
        MetricsDb.empty ∧
      (MetricsDb.empty.storeMetric ⟨.DISTRIBUTION, "d", 1, [], 0⟩).getMetricCount =
        MetricsDb.empty.getMetricCount :=
  ⟨rfl, (claimC9 _ _ rfl).1, (claimC9 _ _ rfl).2⟩

/-! ## Claim C4: the per-kind merge rules of `storeMetric` -/

/-- C4: when an entry with the incoming emission's identity already exists,
`storeMetric` merges by kind — COUNT adds to the running sum, GAUGE
replaces the value regardless of timestamps, HISTOGRAM appends the
`(value, time)` sample — and in every stored case the new entry's
`lastUpdated` is the incoming emission's timestamp. -/
theorem claimC4 (db : MetricsDb) (e : EmittedMetricPayload) (m : StoredMetric)
    (hm : mapGet db.metrics (MetricsDb.getMetricKey e) = some m) :
    (e.type = MetricType.COUNT →
        mapGet (db.storeMetric e).metrics (MetricsDb.getMetricKey e) =
          some ⟨.COUNT, e.name, e.tags, .scalar (m.value.asNumber + e.value),
            e.timestamp⟩) ∧
      (e.type = MetricType.GAUGE →
        mapGet (db.storeMetric e).metrics (MetricsDb.getMetricKey e) =
          some ⟨.GAUGE, e.name, e.tags, .scalar e.value, e.timestamp⟩) ∧
      (e.type = MetricType.HISTOGRAM →
        mapGet (db.storeMetric e).metrics (MetricsDb.getMetricKey e) =
          some ⟨.HISTOGRAM, e.name, e.tags,
            .samples (m.value.asSamples ++ [⟨e.value, e.timestamp⟩]),
            e.timestamp⟩) ∧
      (e.type ≠ MetricType.DISTRIBUTION →
        ∃ m', mapGet (db.storeMetric e).metrics (MetricsDb.getMetricKey e) =
            some m' ∧ m'.lastUpdated = e.timestamp) := by
  refine ⟨?_, ?_, ?_, ?_⟩ <;> intro h
  · simp only [MetricsDb.storeMetric, h, hm]
    exact mapGet_mapSet_self _ _ _
  · simp only [MetricsDb.storeMetric, h, hm]
    exact mapGet_mapSet_self _ _ _
  · simp only [MetricsDb.storeMetric, h, hm]
    exact mapGet_mapSet_self _ _ _
  · cases hty : e.type with
    | COUNT =>
      refine ⟨⟨.COUNT, e.name, e.tags, .scalar (m.value.asNumber + e.value),
        e.timestamp⟩, ?_, rfl⟩
      simp only [MetricsDb.storeMetric, hty, hm]
      exact mapGet_mapSet_self _ _ _
    | GAUGE =>
      refine ⟨⟨.GAUGE, e.name, e.tags, .scalar e.value, e.timestamp⟩, ?_, rfl⟩
      simp only [MetricsDb.storeMetric, hty, hm]
      exact mapGet_mapSet_self _ _ _
    | HISTOGRAM =>
      refine ⟨⟨.HISTOGRAM, e.name, e.tags,
        .samples (m.value.asSamples ++ [⟨e.value, e.timestamp⟩]),
        e.timestamp⟩, ?_, rfl⟩
      simp only [MetricsDb.storeMetric, hty, hm]
      exact mapGet_mapSet_self _ _ _
    | DISTRIBUTION => exact absurd hty h

/-- C4 at the spec's concrete example: COUNT 5 at t=1000 then 3 at t=2000
with the same identity stores value 8 with `lastUpdated = 2000`. -/
theorem claimC4_witness :
    mapGet (MetricsDb.empty.storeMetric
        ⟨.COUNT, "test.counter", 5, [], 1000⟩).metrics
      (MetricsDb.getMetricKey ⟨.COUNT, "test.counter", 3, [], 2000⟩) =
        some ⟨.COUNT, "test.counter", [], .scalar 5, 1000⟩ ∧
    mapGet ((MetricsDb.empty.storeMetric
          ⟨.COUNT, "test.counter", 5, [], 1000⟩).storeMetric
        ⟨.COUNT, "test.counter", 3, [], 2000⟩).metrics
      (MetricsDb.getMetricKey ⟨.COUNT, "test.counter", 3, [], 2000⟩) =
        some ⟨.COUNT, "test.counter", [], .scalar 8, 2000⟩ := by
  have hm : mapGet (MetricsDb.empty.storeMetric
      ⟨.COUNT, "test.counter", 5, [], 1000⟩).metrics
      (MetricsDb.getMetricKey ⟨.COUNT, "test.counter", 3, [], 2000⟩) =
      some ⟨.COUNT, "test.counter", [], .scalar 5, 1000⟩ := by decide
  refine ⟨hm, ?_⟩
  have h := (claimC4 _ ⟨.COUNT, "test.counter", 3, [], 2000⟩ _ hm).1 rfl
  have hval : (8 : ℚ) = (StoredValue.scalar (5 : ℚ)).asNumber + 3 := by
    norm_num [StoredValue.asNumber]
  rw [show (⟨.COUNT, "test.counter", [], .scalar 8, 2000⟩ : StoredMetric) =
      ⟨.COUNT, "test.counter", [],
        .scalar ((StoredValue.scalar (5 : ℚ)).asNumber + 3), 2000⟩ by
    rw [← hval]]
  exact h

/-! ## Claim C7: the shape of `toMetricPayloads` -/

/-- C7: `toMetricPayloads` maps each stored COUNT and GAUGE to a scalar
payload whose `timestamp` field is the entry's `lastUpdated`, maps each
stored HISTOGRAM to a payload carrying the full sample sequence (the
`histogram` payload constructor has no timestamp slot at all), and its
output is exactly the per-entry export of the store's values. -/
theorem claimC7 (db : MetricsDb) :
    (∀ p, p ∈ db.toMetricPayloads ↔
        ∃ m, m ∈ db.values ∧ exportStoredMetric m = some p) ∧
      (∀ m : StoredMetric, m.type = MetricType.COUNT ∨ m.type = MetricType.GAUGE →
        exportStoredMetric m =
          some (.scalar m.type m.name m.value.asNumber m.tags m.lastUpdated)) ∧
      (∀ m : StoredMetric, m.type = MetricType.HISTOGRAM →
        exportStoredMetric m =
          some (.histogram m.name m.value.asSamples m.tags)) := by
  refine ⟨?_, ?_, ?_⟩
  · intro p
    simp [MetricsDb.toMetricPayloads, List.mem_filterMap]
  · rintro m (h | h) <;> simp [exportStoredMetric, h]
  · intro m h
    simp [exportStoredMetric, h]

/-- C7 at concrete inputs: a stored COUNT exports with its `lastUpdated`
as timestamp, a stored HISTOGRAM exports its samples with no timestamp. -/
theorem claimC7_witness :
    exportStoredMetric ⟨.COUNT, "c", [], .scalar 5, 1000⟩ =
        some (.scalar .COUNT "c" 5 [] 1000) ∧
      exportStoredMetric ⟨.HISTOGRAM, "h", [], .samples [⟨7, 42⟩], 1000⟩ =
        some (.histogram "h" [⟨7, 42⟩] []) :=
  ⟨(claimC7 MetricsDb.empty).2.1 ⟨.COUNT, "c", [], .scalar 5, 1000⟩ (Or.inl rfl),
    (claimC7 MetricsDb.empty).2.2 ⟨.HISTOGRAM, "h", [], .samples [⟨7, 42⟩], 1000⟩ rfl⟩

/-! ## Claim C10: the Datadog sink never transmits `worker.`-named payloads -/

/-- C10: `sendMetrics` filters out every payload whose name starts with the
literal `worker.` before transformation: the filtered list contains exactly
the payloads without that name prefix, in order, and inserting a
`worker.`-prefixed payload anywhere in the input changes nothing about
what is transformed and sent. -/
theorem claimC10 {δ : Type} (transformMetric : ExportedMetricPayload → δ)
    (payloads : List ExportedMetricPayload) :
    (∀ p, p ∈ ddFilterPayloads payloads ↔
        p ∈ payloads ∧ isWorkerMetricName p = false) ∧
      (∀ (l₁ l₂ : List ExportedMetricPayload) (q : ExportedMetricPayload),
        isWorkerMetricName q = true →
        ddSendMetrics transformMetric (l₁ ++ q :: l₂) =
          ddSendMetrics transformMetric (l₁ ++ l₂)) := by
  constructor
  · intro p
    simp [ddFilterPayloads, List.mem_filter]
  · intro l₁ l₂ q hq
    have hfilter : ddFilterPayloads (l₁ ++ q :: l₂) = ddFilterPayloads (l₁ ++ l₂) := by
      simp [ddFilterPayloads, List.filter_append, hq]
    rcases hll : l₁ ++ l₂ with _ | ⟨x, xs⟩
    · have h₁ : l₁ = [] := by
        cases l₁ with
        | nil => rfl
        | cons a as => simp at hll
      have h₂ : l₂ = [] := by
        rw [h₁] at hll
        simpa using hll
      subst h₁; subst h₂
      simp [ddSendMetrics, ddFilterPayloads, hq]
    · have hne : (l₁ ++ q :: l₂).isEmpty = false := by
        cases l₁ <;> simp
      have hc : ¬(l₁ = [] ∧ l₂ = []) := by
        rintro ⟨h1, h2⟩
        subst h1; subst h2
        simp at hll
      rw [ddSendMetrics, ddSendMetrics, hne]
      simp [hfilter, ← hll, hc]

/-- C10 at a concrete input: inserting a `worker.requests` payload ahead of
a custom payload leaves the transformed-and-sent list unchanged. -/
theorem claimC10_witness :
    isWorkerMetricName (.scalar .COUNT "worker.requests" 1 [] 0) = true ∧
      ddSendMetrics (fun p => p)
          ([] ++ (.scalar .COUNT "worker.requests" 1 [] 0) ::
            [.scalar .COUNT "my.counter" 2 [] 0]) =
        ddSendMetrics (fun p => p) ([] ++ [.scalar .COUNT "my.counter" 2 [] 0]) :=
  ⟨by decide,
    (claimC10 (fun p => p) []).2 [] [.scalar .COUNT "my.counter" 2 [] 0]
      (.scalar .COUNT "worker.requests" 1 [] 0) (by decide)⟩

/-! ## Claims C3 and C8: the canonical tag key -/

theorem sortedStrict_of_sorted_nodup {s : Tags} (hs : List.Sorted tagKeyLE s)
    (hn : (s.map Prod.fst).Nodup) : List.Sorted tagKeyStrict s := by
  have hne : s.Pairwise (fun p q => p.1 ≠ q.1) := List.pairwise_map.mp hn
  exact hs.and hne

theorem insertionSort_eq_of_perm {l₁ l₂ : Tags} (hperm : List.Perm l₁ l₂)
    (hnd : (l₁.map Prod.fst).Nodup) :
    List.insertionSort tagKeyLE l₁ = List.insertionSort tagKeyLE l₂ := by
  have hs₁ := List.sorted_insertionSort tagKeyLE l₁
  have hs₂ := List.sorted_insertionSort tagKeyLE l₂
  have hnd₂ : (l₂.map Prod.fst).Nodup := hnd.perm (hperm.map Prod.fst)
  have hndS₁ : ((List.insertionSort tagKeyLE l₁).map Prod.fst).Nodup :=
    hnd.perm ((List.perm_insertionSort tagKeyLE l₁).symm.map Prod.fst)
  have hndS₂ : ((List.insertionSort tagKeyLE l₂).map Prod.fst).Nodup :=
    hnd₂.perm ((List.perm_insertionSort tagKeyLE l₂).symm.map Prod.fst)
  have hp : List.Perm (List.insertionSort tagKeyLE l₁)
      (List.insertionSort tagKeyLE l₂) :=
    ((List.perm_insertionSort tagKeyLE l₁).trans hperm).trans
      (List.perm_insertionSort tagKeyLE l₂).symm
  exact List.eq_of_perm_of_sorted hp
    (sortedStrict_of_sorted_nodup hs₁ hndS₁)
    (sortedStrict_of_sorted_nodup hs₂ hndS₂)

theorem serializeTags_eq_of_perm {l₁ l₂ : Tags} (hperm : List.Perm l₁ l₂)
    (hnd : (l₁.map Prod.fst).Nodup) : serializeTags l₁ = serializeTags l₂ := by
  unfold serializeTags
  rw [insertionSort_eq_of_perm hperm hnd]

/-- Storing a COUNT emission whose key matches a singleton store's entry
replaces that entry with the accumulated one. -/
theorem storeCount_into_singleton (k : String) (m : StoredMetric)
    (e : EmittedMetricPayload) (he : e.type = MetricType.COUNT)
    (hk : MetricsDb.getMetricKey e = k) :
    (MetricsDb.mk [(k, m)]).storeMetric e =
      ⟨[(k, ⟨.COUNT, e.name, e.tags, .scalar (m.value.asNumber + e.value),
        e.timestamp⟩)]⟩ := by
  simp only [MetricsDb.storeMetric, he, hk]
  simp [mapGet, mapSet, List.find?_cons, List.any_cons]

/-- C3: two COUNT emissions with the same name whose tag mappings hold the
same keys and values in any insertion order get the same canonical key,
and merging both into a fresh store leaves a single entry holding the
accumulated sum (`getMetricCount` stays 1). -/
theorem claimC3 (name : String) (v₁ v₂ : ℚ) (ts₁ ts₂ : Int)
    (tags₁ tags₂ : Tags) (hperm : List.Perm tags₁ tags₂)
    (hnd : (tags₁.map Prod.fst).Nodup) :
    MetricsDb.getMetricKey ⟨.COUNT, name, v₁, tags₁, ts₁⟩ =
        MetricsDb.getMetricKey ⟨.COUNT, name, v₂, tags₂, ts₂⟩ ∧
      ((MetricsDb.empty.storeMetric
            ⟨.COUNT, name, v₁, tags₁, ts₁⟩).storeMetric
          ⟨.COUNT, name, v₂, tags₂, ts₂⟩).getMetricCount = 1 ∧
      mapGet ((MetricsDb.empty.storeMetric
            ⟨.COUNT, name, v₁, tags₁, ts₁⟩).storeMetric
          ⟨.COUNT, name, v₂, tags₂, ts₂⟩).metrics
        (MetricsDb.getMetricKey ⟨.COUNT, name, v₂, tags₂, ts₂⟩) =
        some ⟨.COUNT, name, tags₂, .scalar (v₁ + v₂), ts₂⟩ := by
  have hkey : MetricsDb.getMetricKey ⟨.COUNT, name, v₁, tags₁, ts₁⟩ =
      MetricsDb.getMetricKey ⟨.COUNT, name, v₂, tags₂, ts₂⟩ := by
    unfold MetricsDb.getMetricKey
    rw [serializeTags_eq_of_perm hperm hnd]
  have hdb₁ : MetricsDb.empty.storeMetric ⟨.COUNT, name, v₁, tags₁, ts₁⟩ =
      ⟨[(MetricsDb.getMetricKey ⟨.COUNT, name, v₁, tags₁, ts₁⟩,
        ⟨.COUNT, name, tags₁, .scalar v₁, ts₁⟩)]⟩ := rfl
  have hstep := storeCount_into_singleton
    (MetricsDb.getMetricKey ⟨.COUNT, name, v₁, tags₁, ts₁⟩)
    ⟨.COUNT, name, tags₁, .scalar v₁, ts₁⟩
    ⟨.COUNT, name, v₂, tags₂, ts₂⟩ rfl hkey.symm
  refine ⟨hkey, ?_, ?_⟩
  · rw [hdb₁, hstep]
    rfl
  · rw [hdb₁, hstep, ← hkey]
    simp [mapGet, List.find?_cons, StoredValue.asNumber]

/-- C3 at a concrete input: tags `{a:1,b:2}` and `{b:2,a:1}` land in the
same stored entry and the count accumulates. -/
theorem claimC3_witness :
    MetricsDb.getMetricKey
        ⟨.COUNT, "m", 1, [("a", .num 1), ("b", .num 2)], 10⟩ =
      MetricsDb.getMetricKey
        ⟨.COUNT, "m", 2, [("b", .num 2), ("a", .num 1)], 20⟩ ∧
    ((MetricsDb.empty.storeMetric
          ⟨.COUNT, "m", 1, [("a", .num 1), ("b", .num 2)], 10⟩).storeMetric
        ⟨.COUNT, "m", 2, [("b", .num 2), ("a", .num 1)], 20⟩).getMetricCount = 1 ∧
    mapGet ((MetricsDb.empty.storeMetric
          ⟨.COUNT, "m", 1, [("a", .num 1), ("b", .num 2)], 10⟩).storeMetric
        ⟨.COUNT, "m", 2, [("b", .num 2), ("a", .num 1)], 20⟩).metrics
      (MetricsDb.getMetricKey
        ⟨.COUNT, "m", 2, [("b", .num 2), ("a", .num 1)], 20⟩) =
      some ⟨.COUNT, "m", [("b", .num 2), ("a", .num 1)], .scalar (1 + 2), 20⟩ :=
  claimC3 "m" 1 2 10 20 [("a", .num 1), ("b", .num 2)]
    [("b", .num 2), ("a", .num 1)]
    (List.Perm.swap ("b", TagValue.num 2) ("a", TagValue.num 1) []) (by decide)

/-- C8: the canonical tag key is not injective — a single tag whose string
value contains the text `,b:2` collides with the two-tag mapping
`{a:"1", b:"2"}`, so `storeMetric` merges the two distinct identities into
one Stored Metric. -/
theorem claimC8 :
    ([("a", TagValue.str "1,b:2")] : Tags) ≠
        [("a", TagValue.str "1"), ("b", TagValue.str "2")] ∧
      MetricsDb.getMetricKey ⟨.COUNT, "m", 1, [("a", .str "1,b:2")], 0⟩ =
        MetricsDb.getMetricKey
          ⟨.COUNT, "m", 2, [("a", .str "1"), ("b", .str "2")], 5⟩ ∧
      ((MetricsDb.empty.storeMetric
            ⟨.COUNT, "m", 1, [("a", .str "1,b:2")], 0⟩).storeMetric
          ⟨.COUNT, "m", 2, [("a", .str "1"), ("b", .str "2")], 5⟩).getMetricCount
        = 1 :=
  ⟨by decide, by decide, by decide⟩

/-! ## Claim C1: size-triggered flush is immediate and unconditional -/

/-- C1: when the buffered item count after appending the incoming batch
has reached the configured maximum, `processTraceItems` increments the
flush epoch, clears the armed-timer flag, clears the buffer and hands the
flush (with the whole buffer as snapshot) to the background-task handle —
and no timer effect is emitted; any timer armed earlier captured an epoch
at most the old `#flushId`, so it observes a stale epoch and no-ops. -/
theorem claimC1 {α : Type} (t : LogsTail α) (items : List α)
    (hpos : 0 < t.maxBufferSize)
    (hsize : t.maxBufferSize ≤ (t.traceItems ++ items).length) :
    processTraceItems t items =
      ({ t with traceItems := [], flushScheduled := false, flushId := t.flushId + 1 },
        [Eff.flush (t.traceItems ++ items)]) ∧
      ∀ captured, captured ≤ t.flushId →
        timerWake (processTraceItems t items).1 captured =
          ((processTraceItems t items).1, []) := by
  have h1 : processTraceItems t items =
      ({ t with traceItems := [], flushScheduled := false, flushId := t.flushId + 1 },
        [Eff.flush (t.traceItems ++ items)]) := by
    have hlen : ¬(t.traceItems ++ items).length = 0 := by
      intro h0
      rw [h0] at hsize
      omega
    simp only [processTraceItems]
    rw [if_pos hsize]
    simp only [performFlush]
    rw [if_neg hlen]
  refine ⟨h1, ?_⟩
  intro captured hc
  rw [h1]
  have hne : captured ≠ t.flushId + 1 := by omega
  simp only [timerWake]
  rw [if_neg hne]

/-- C1 at a concrete input: a scheduler with max buffer size 1 flushes
synchronously on the very first item, with no timer. -/
theorem claimC1_witness :
    0 < (1 : Nat) ∧ (1 : Nat) ≤ (([] : List Nat) ++ [42]).length ∧
      processTraceItems (LogsTail.mk 1 5 0 [] false) [42] =
        (LogsTail.mk 1 5 1 [] false, [Eff.flush [42]]) ∧
      ∀ captured, captured ≤ (0 : Nat) →
        timerWake (processTraceItems (LogsTail.mk 1 5 0 ([] : List Nat) false) [42]).1
            captured =
          ((processTraceItems (LogsTail.mk 1 5 0 ([] : List Nat) false) [42]).1, []) :=
  ⟨Nat.one_pos, by decide,
    (claimC1 (LogsTail.mk 1 5 0 [] false) [42] Nat.one_pos (by decide)).1,
    (claimC1 (LogsTail.mk 1 5 0 [] false) [42] Nat.one_pos (by decide)).2⟩

/-! ## Claim C2: epoch-guarded timers, coalescing, no double delivery -/

theorem schedStep_conservation {α : Type} (t : LogsTail α) (s : SchedStep α) :
    (flushesOf (schedStep t s).2).flatten ++ (schedStep t s).1.traceItems =
      t.traceItems ++ submittedOf s := by
  cases s with
  | wake captured =>
    simp only [schedStep, timerWake, submittedOf]
    by_cases hc : captured = t.flushId
    · rw [if_pos hc]
      simp only [performFlush]
      by_cases h0 : t.traceItems.length = 0
      · rw [if_pos h0]
        have hnil : t.traceItems = [] := List.length_eq_zero.mp h0
        simp [flushesOf, hnil]
      · rw [if_neg h0]
        simp [flushesOf]
    · rw [if_neg hc]
      simp [flushesOf]
  | submit items =>
    simp only [schedStep, processTraceItems, submittedOf]
    by_cases hsize : t.maxBufferSize ≤ (t.traceItems ++ items).length
    · rw [if_pos hsize]
      simp only [performFlush]
      by_cases h0 : (t.traceItems ++ items).length = 0
      · rw [if_pos h0]
        have hnil : t.traceItems ++ items = [] := List.length_eq_zero.mp h0
        simp [flushesOf, hnil]
      · rw [if_neg h0]
        simp [flushesOf]
    · rw [if_neg hsize]
      by_cases hsch : t.flushScheduled = true
      · rw [if_pos hsch]
        simp [flushesOf]
      · rw [if_neg hsch]
        by_cases hlen : 0 < (t.traceItems ++ items).length
        · rw [if_pos hlen]
          simp [flushesOf]
        · rw [if_neg hlen]
          simp [flushesOf]

theorem runSteps_conservation {α : Type} (t : LogsTail α)
    (steps : List (SchedStep α)) :
    (runSteps t steps).2.flatten ++ (runSteps t steps).1.traceItems =
      t.traceItems ++ (steps.map submittedOf).flatten := by
  induction steps generalizing t with
  | nil => simp [runSteps]
  | cons s rest ih =>
    simp only [runSteps, List.map_cons, List.flatten_cons]
    rw [List.flatten_append, List.append_assoc, ih (schedStep t s).1,
      ← List.append_assoc, schedStep_conservation, List.append_assoc]

/-- C2: a debounce timer flushes exactly when its captured epoch still
equals the live epoch and no-ops otherwise; a batch arriving while a timer
is armed (and under the size threshold) coalesces — no new timer, no epoch
advance; and over any stimulus sequence the flushed payloads plus the
remaining buffer are exactly the submitted items, so no item is ever
delivered in two flushes. -/
theorem claimC2 {α : Type} [DecidableEq α] :
    (∀ (t : LogsTail α) (captured : Nat), captured ≠ t.flushId →
        timerWake t captured = (t, [])) ∧
      (∀ (t : LogsTail α) (captured : Nat), captured = t.flushId →
        timerWake t captured = performFlush t) ∧
      (∀ (t : LogsTail α) (items : List α), t.flushScheduled = true →
        (t.traceItems ++ items).length < t.maxBufferSize →
        processTraceItems t items =
          ({ t with traceItems := t.traceItems ++ items }, [])) ∧
      (∀ (t : LogsTail α) (steps : List (SchedStep α)),
        (runSteps t steps).2.flatten ++ (runSteps t steps).1.traceItems =
          t.traceItems ++ (steps.map submittedOf).flatten) ∧
      (∀ (steps : List (SchedStep α)) (t : LogsTail α) (x : α),
        t.traceItems = [] →
        ((runSteps t steps).2.flatten).count x ≤
          ((steps.map submittedOf).flatten).count x) := by
  refine ⟨?_, ?_, ?_, ?_, ?_⟩
  · intro t captured h
    simp only [timerWake]
    rw [if_neg h]
  · intro t captured h
    simp only [timerWake]
    rw [if_pos h]
  · intro t items hsch hlt
    simp only [processTraceItems]
    rw [if_neg (not_le.mpr hlt)]
    rw [if_pos hsch]
  · intro t steps
    exact runSteps_conservation t steps
  · intro steps t x h0
    have h4 := runSteps_conservation t steps
    rw [h0, List.nil_append] at h4
    rw [← h4, List.count_append]
    exact Nat.le_add_right _ _

/-- C2 at concrete inputs: a stale timer (captured epoch 1, live epoch 2)
no-ops, and a second batch submitted while a timer is armed coalesces with
no new timer and no epoch advance. -/
theorem claimC2_witness :
    ((1 : Nat) ≠ (LogsTail.mk 25 5 2 ([] : List Nat) false).flushId ∧
        timerWake (LogsTail.mk 25 5 2 ([] : List Nat) false) 1 =
          (LogsTail.mk 25 5 2 [] false, [])) ∧
      ((LogsTail.mk 25 5 1 [1] true).flushScheduled = true ∧
        ([1] ++ [2]).length < 25 ∧
        processTraceItems (LogsTail.mk 25 5 1 ([1] : List Nat) true) [2] =
          (LogsTail.mk 25 5 1 [1, 2] true, [])) :=
  ⟨⟨by decide, (claimC2 (α := Nat)).1 (LogsTail.mk 25 5 2 [] false) 1 (by decide)⟩,
    ⟨rfl, by decide,
      (claimC2 (α := Nat)).2.2.1 (LogsTail.mk 25 5 1 [1] true) [2] rfl (by decide)⟩⟩

/-! ## Claim C5: per-sink outcome isolation in the flush fan-out -/

/-- C5: every configured sink is invoked on the snapshot and its outcome
is collected independently — the outcome recorded at a sink's position is
exactly that sink's own send result, unaffected by the other sinks; the
success count and the aggregated failure diagnostics decompose pointwise,
so any subset of sinks failing neither prevents delivery to the remaining
sinks nor escapes the (total, never-throwing) dispatch function. -/
theorem claimC5 {α : Type} (items : List α)
    (sinks l₁ l₂ : List (List α → Except String Unit))
    (k : List α → Except String Unit) :
    (dispatchToSinks sinks items).outcomes.length = sinks.length ∧
      (dispatchToSinks (l₁ ++ k :: l₂) items).outcomes[l₁.length]? =
        some (k items) ∧
      (dispatchToSinks (l₁ ++ k :: l₂) items).successCount =
        (dispatchToSinks l₁ items).successCount +
          ((if (k items).toBool then 1 else 0) +
            (dispatchToSinks l₂ items).successCount) ∧
      (dispatchToSinks (l₁ ++ k :: l₂) items).errorMessages =
        (dispatchToSinks l₁ items).errorMessages ++
          ((rejectionMessage (k items)).toList ++
            (dispatchToSinks l₂ items).errorMessages) := by
  refine ⟨?_, ?_, ?_, ?_⟩
  · simp [dispatchToSinks]
  · simp only [dispatchToSinks, List.map_append, List.map_cons]
    rw [List.getElem?_append_right (by simp)]
    simp
  · simp only [dispatchToSinks, List.map_append, List.map_cons,
      List.filter_append, List.filter_cons, List.length_append]
    by_cases hk : (k items).toBool
    · simp [hk]
      rw [Nat.add_comm]
    · simp [hk]
  · simp only [dispatchToSinks, List.map_append, List.map_cons,
      List.filterMap_append, List.filterMap_cons]
    rcases hk : k items with _ | e <;> simp [rejectionMessage]

/-! ## Claim C6: exponential-histogram bucketing -/

theorem foldl_min_le_init (a : Int) (l : List Int) : l.foldl min a ≤ a := by
  induction l generalizing a with
  | nil => exact le_refl a
  | cons b l ih =>
    calc (b :: l).foldl min a = l.foldl min (min a b) := rfl
    _ ≤ min a b := ih (min a b)
    _ ≤ a := min_le_left a b

theorem foldl_min_le_mem {x : Int} (a : Int) (l : List Int) (hx : x ∈ l) :
    l.foldl min a ≤ x := by
  induction l generalizing a with
  | nil => simp at hx
  | cons b l ih =>
    rcases List.mem_cons.mp hx with rfl | hmem
    · calc (x :: l).foldl min a = l.foldl min (min a x) := rfl
      _ ≤ min a x := foldl_min_le_init (min a x) l
      _ ≤ x := min_le_right a x
    · exact ih (min a b) hmem

theorem init_le_foldl_max (a : Int) (l : List Int) : a ≤ l.foldl max a := by
  induction l generalizing a with
  | nil => exact le_refl a
  | cons b l ih =>
    calc a ≤ max a b := le_max_left a b
    _ ≤ l.foldl max (max a b) := ih (max a b)
    _ = (b :: l).foldl max a := rfl

theorem mem_le_foldl_max {x : Int} (a : Int) (l : List Int) (hx : x ∈ l) :
    x ≤ l.foldl max a := by
  induction l generalizing a with
  | nil => simp at hx
  | cons b l ih =>
    rcases List.mem_cons.mp hx with rfl | hmem
    · calc x ≤ max a x := le_max_right a x
      _ ≤ l.foldl max (max a x) := init_le_foldl_max (max a x) l
      _ = (x :: l).foldl max a := rfl
    · exact ih (max a b) hmem

theorem listMinI_le {l : List Int} {x : Int} (hx : x ∈ l) : listMinI l ≤ x := by
  cases l with
  | nil => simp at hx
  | cons a l =>
    rcases List.mem_cons.mp hx with rfl | hmem
    · exact foldl_min_le_init x l
    · exact foldl_min_le_mem a l hmem

theorem le_listMaxI {l : List Int} {x : Int} (hx : x ∈ l) : x ≤ listMaxI l := by
  cases l with
  | nil => simp at hx
  | cons a l =>
    rcases List.mem_cons.mp hx with rfl | hmem
    · exact init_le_foldl_max x l
    · exact mem_le_foldl_max a l hmem

theorem sum_map_add_nat {β : Type} (l : List β) (g h : β → Nat) :
    (l.map (fun b => g b + h b)).sum = (l.map g).sum + (l.map h).sum := by
  induction l with
  | nil => rfl
  | cons a l ih =>
    simp only [List.map_cons, List.sum_cons, ih]
    omega

theorem sum_indicator_one (lo t : Int) (n : Nat) (h1 : lo ≤ t)
    (h2 : t < lo + n) :
    ((List.range n).map (fun (j : Nat) => if t == lo + (j : Int) then 1 else 0)).sum
      = 1 := by
  induction n with
  | zero =>
    exfalso
    rw [Nat.cast_zero, add_zero] at h2
    exact absurd (lt_of_le_of_lt h1 h2) (lt_irrefl lo)
  | succ n ih =>
    rw [List.range_succ, List.map_append, List.sum_append]
    by_cases ht : t = lo + n
    · have hzero : ((List.range n).map
          (fun (j : Nat) => if t == lo + (j : Int) then 1 else 0)).sum = 0 := by
        apply List.sum_eq_zero
        intro x hx
        rcases List.mem_map.mp hx with ⟨j, hj, rfl⟩
        have hjn : j < n := List.mem_range.mp hj
        have hne : ¬(t == lo + (j : Int)) = true := by
          rw [beq_iff_eq, ht]
          intro he
          have hcast : (j : Int) < (n : Int) := by exact_mod_cast hjn
          omega
        rw [if_neg hne]
      rw [hzero]
      have hpos : (t == lo + (n : Int)) = true := by
        rw [beq_iff_eq]
        exact ht
      simp [hpos]
      exact ht
    · have h2' : t < lo + n := by
        push_cast at h2
        omega
      rw [ih h2']
      have hne : ¬(t == lo + (n : Int)) = true := by
        rw [beq_iff_eq]
        exact ht
      simp [hne]
      exact ht

theorem sum_range_countP {β : Type} (f : β → Int) (lo : Int) (n : Nat)
    (l : List β) (h : ∀ v ∈ l, lo ≤ f v ∧ f v < lo + n) :
    ((List.range n).map
      (fun (j : Nat) => l.countP (fun v => f v == lo + (j : Int)))).sum
      = l.length := by
  induction l with
  | nil => simp
  | cons a l ih =>
    have ha := h a (List.mem_cons_self a l)
    have hl : ∀ v ∈ l, lo ≤ f v ∧ f v < lo + n :=
      fun v hv => h v (List.mem_cons_of_mem a hv)
    simp only [List.countP_cons]
    rw [sum_map_add_nat, ih hl, sum_indicator_one lo (f a) n ha.1 ha.2]
    simp [Nat.add_comm]

/-- C6: for a non-empty list of strictly-positive sample values the bucket
builder assigns each sample the scale-0 index `floor(log2 value)` (the
unique `e` with `2^e ≤ v < 2^(e+1)`), emits exactly one count per index in
the contiguous range from the minimum to the maximum observed index (the
count at position `j` is the number of samples with index `offset + j`,
and the counts sum to the sample count, so unobserved indices are
zero-filled and nothing is dropped), with the minimum index as offset;
and for an empty list it returns `{offset := 0, bucketCounts := []}`. -/
theorem claimC6 (values : List ℚ) (hne : values ≠ [])
    (hpos : ∀ v ∈ values, 0 < v) :
    (∀ v ∈ values, bucketIndex v = Int.log 2 v ∧
        (2 : ℚ) ^ (bucketIndex v) ≤ v ∧ v < (2 : ℚ) ^ (bucketIndex v + 1)) ∧
      (buildExponentialBuckets values).offset =
        listMinI (values.map bucketIndex) ∧
      (buildExponentialBuckets values).bucketCounts.length =
        (listMaxI (values.map bucketIndex) -
          listMinI (values.map bucketIndex) + 1).toNat ∧
      (∀ j, (hj : j < (buildExponentialBuckets values).bucketCounts.length) →
        (buildExponentialBuckets values).bucketCounts[j] =
          values.countP (fun v =>
            bucketIndex v ==
              (buildExponentialBuckets values).offset + (j : Int))) ∧
      (buildExponentialBuckets values).bucketCounts.sum = values.length ∧
      buildExponentialBuckets ([] : List ℚ) = ⟨0, []⟩ := by
  have hlog : ∀ v ∈ values, bucketIndex v = Int.log 2 v := by
    intro v hv
    unfold bucketIndex
    rw [if_neg (not_le.mpr (hpos v hv))]
  have hbound : ∀ v ∈ values,
      (2 : ℚ) ^ (bucketIndex v) ≤ v ∧ v < (2 : ℚ) ^ (bucketIndex v + 1) := by
    intro v hv
    rw [hlog v hv]
    constructor
    · have h := Int.zpow_log_le_self (b := 2) (R := ℚ) (by norm_num)
        (hpos v hv)
      push_cast at h
      exact h
    · have h := Int.lt_zpow_succ_log_self (b := 2) (R := ℚ) (by norm_num) v
      push_cast at h
      exact h
  rcases values with _ | ⟨v₀, vs⟩
  · exact absurd rfl hne
  have hred : buildExponentialBuckets (v₀ :: vs) =
      ⟨listMinI ((v₀ :: vs).map bucketIndex),
        (List.range (listMaxI ((v₀ :: vs).map bucketIndex) -
            listMinI ((v₀ :: vs).map bucketIndex) + 1).toNat).map
          (fun (i : Nat) => (v₀ :: vs).countP
            (fun v => bucketIndex v ==
              listMinI ((v₀ :: vs).map bucketIndex) + (i : Int)))⟩ := rfl
  refine ⟨fun v hv => ⟨hlog v hv, hbound v hv⟩, ?_, ?_, ?_, ?_, rfl⟩
  · rw [hred]
  · rw [hred]
    simp
  · intro j hj
    simp only [hred, List.getElem_map, List.getElem_range]
  · rw [hred]
    have hminmax : listMinI ((v₀ :: vs).map bucketIndex) ≤
        listMaxI ((v₀ :: vs).map bucketIndex) := by
      have hmem : bucketIndex v₀ ∈ (v₀ :: vs).map bucketIndex :=
        List.mem_map_of_mem bucketIndex (List.mem_cons_self v₀ vs)
      exact le_trans (listMinI_le hmem) (le_listMaxI hmem)
    have hcast : ((listMaxI ((v₀ :: vs).map bucketIndex) -
        listMinI ((v₀ :: vs).map bucketIndex) + 1).toNat : Int) =
        listMaxI ((v₀ :: vs).map bucketIndex) -
          listMinI ((v₀ :: vs).map bucketIndex) + 1 :=
      Int.toNat_of_nonneg (by omega)
    apply sum_range_countP
    intro v hv
    have hmemv : bucketIndex v ∈ (v₀ :: vs).map bucketIndex :=
      List.mem_map_of_mem bucketIndex hv
    have h1 := listMinI_le hmemv
    have h2 := le_listMaxI hmemv
    constructor
    · exact h1
    · rw [hcast]
      omega

/-- C6 at a concrete input: the positive group `[1, 2]` is bucketed with
its counts summing to the sample count and the minimum index as offset. -/
theorem claimC6_witness :
    ([1, 2] : List ℚ) ≠ [] ∧ (∀ v ∈ ([1, 2] : List ℚ), 0 < v) ∧
      (buildExponentialBuckets ([1, 2] : List ℚ)).bucketCounts.sum = 2 ∧
      (buildExponentialBuckets ([1, 2] : List ℚ)).offset =
        listMinI (([1, 2] : List ℚ).map bucketIndex) ∧
      buildExponentialBuckets ([] : List ℚ) = ⟨0, []⟩ :=
  ⟨by decide, by norm_num,
    ((claimC6 [1, 2] (by decide) (by norm_num)).2.2.2.2.1).trans rfl,
    (claimC6 [1, 2] (by decide) (by norm_num)).2.1,
    (claimC6 [1, 2] (by decide) (by norm_num)).2.2.2.2.2⟩
